import Mathlib

/-!
Verification development for `code_analyzer.py`: a single-pass CI utility
that walks a repository checkout, sends each selected source file to the
Snowflake Cortex completion endpoint, and aggregates the textual responses
into one Markdown report.

The embedding models the filesystem as a finite tree of named entries, the
remote query as an oracle returning either rows or a raised error message,
and the driver as a pure function over those oracles.
-/

namespace CodeAnalyzer

mutual

/-- A filesystem entry: a regular file or a directory with its child
entries (in directory-listing order, the order `os.walk` reports names). -/
inductive FSEntry where
  | file (name : String) : FSEntry
  | dir (name : String) (entries : FSList) : FSEntry

/-- A directory listing: a finite sequence of filesystem entries. -/
inductive FSList where
  | nil : FSList
  | cons (e : FSEntry) (rest : FSList) : FSList

end

/-- Does the path string begin with a slash? Models Python
`s.startswith('/')`, the POSIX absoluteness test used by `os.path.join`. -/
def startsSlash (s : String) : Bool :=
  s.data.head? == some '/'

/-- Does the path string end with a slash? Models Python `s.endswith('/')`
as used by `os.path.join`. -/
def endsSlash (s : String) : Bool :=
  match s.data.getLast? with
  | some c => c = '/'
  | none => false

/-- Models POSIX `os.path.join(a, b)` for a single component `b`:
an absolute `b` replaces `a`; otherwise a separator is inserted unless `a`
is empty or already ends in one. -/
def pathJoin (a b : String) : String :=
  if startsSlash b then b
  else if a = "" then b
  else if endsSlash a then a ++ b
  else a ++ "/" ++ b

/-- The `(root, filename)` pairs contributed by the regular files directly
inside one directory, in listing order: one `os.walk` triple's file loop. -/
def topFiles (root : String) : FSList → List (String × String)
  | .nil => []
  | .cons (.file n) rest => (root, n) :: topFiles root rest
  | .cons (.dir _ _) rest => topFiles root rest

/-- The `(root, filename)` pairs produced by recursively walking every
subdirectory of the given entry list, in listing order. -/
def walkSubdirs (root : String) : FSList → List (String × String)
  | .nil => []
  | .cons (.file _) rest => walkSubdirs root rest
  | .cons (.dir n es) rest =>
      (topFiles (pathJoin root n) es ++ walkSubdirs (pathJoin root n) es)
        ++ walkSubdirs root rest

/-- All `(root, filename)` pairs yielded by `os.walk(root)` over the tree,
flattened in iteration order: each directory's own files first (top-down
walk), then its subdirectories in listing order. -/
def walkDir (root : String) (es : FSList) : List (String × String) :=
  topFiles root es ++ walkSubdirs root es

/-- The directory markers excluded by `get_files_to_analyze`. -/
def excludeDirs : List String := ["/.git/", "/node_modules/", "/__pycache__/", "/.venv/"]

/-- Is the first list a prefix of the second? Boolean helper for the
substring and suffix tests. -/
def isPrefixL : List Char → List Char → Bool
  | [], _ => true
  | _ :: _, [] => false
  | n :: ns, h :: hs => n = h && isPrefixL ns hs

/-- Models Python `s.endswith(suffix)`. -/
def strEndsWith (s suffix : String) : Bool :=
  isPrefixL suffix.data.reverse s.data.reverse

/-- Does `needle` occur as a contiguous run inside `hay`? -/
def isInfixL (needle : List Char) : List Char → Bool
  | [] => isPrefixL needle []
  | h :: hs => isPrefixL needle (h :: hs) || isInfixL needle hs

/-- Models the Python substring test `needle in hay`. -/
def containsSub (hay needle : String) : Bool :=
  isInfixL needle.data hay.data

/-- Embedding of `get_files_to_analyze(repo_path, file_extensions)` run over
the tree `tree` rooted at `repo_path`: for each walked file (in walk order),
keep its joined full path when its name ends with an accepted extension and
the full path contains no excluded directory marker. -/
def get_files_to_analyze (repo_path : String) (file_extensions : List String)
    (tree : FSList) : List String :=
  (walkDir repo_path tree).filterMap fun rf =>
    if file_extensions.any fun ext => strEndsWith rf.2 ext then
      if excludeDirs.any fun d => containsSub (pathJoin rf.1 rf.2) d then none
      else some (pathJoin rf.1 rf.2)
    else none

/-- Specification-side collection: the `(full path, file name)` pairs of all
regular files under `root`, gathered by direct recursion in entry order
(files and directories interleaved as listed, unlike the walk grouping). -/
def regularFilesUnder (root : String) : FSList → List (String × String)
  | .nil => []
  | .cons (.file n) rest => (pathJoin root n, n) :: regularFilesUnder root rest
  | .cons (.dir n es) rest =>
      regularFilesUnder (pathJoin root n) es ++ regularFilesUnder root rest

/-- The fixed Cortex model identifier `CORTEX_MODEL`. -/
def CORTEX_MODEL : String := "mixtral-8x7b"

/-- The fixed system prompt returned by `get_system_prompt()`. -/
def get_system_prompt : String :=
  "You are an expert code optimization and generation agent. Your responsibilities include:\n\n1. **Code Optimization**: Analyze provided code and suggest improvements for:\n   - Performance optimization (Big O complexity, algorithm efficiency)\n   - Memory efficiency and resource usage\n   - Code readability and maintainability\n   - Best practices adherence\n   - Security improvements and vulnerability fixes\n   - Error handling and edge cases\n   - Design patterns implementation\n\n2. **Code Generation**: Generate high-quality, production-ready code based on user requirements:\n   - Follow language-specific best practices and conventions\n   - Include proper error handling and validation\n   - Add meaningful comments and documentation\n   - Use efficient algorithms and appropriate data structures\n   - Consider scalability and maintainability\n\n3. **Code Review**: Provide detailed explanations including:\n   - What changes were made and why\n   - Performance implications and trade-offs\n   - Alternative approaches and their pros/cons\n   - Security considerations\n   - Testing recommendations\n\nAlways provide complete, working code with clear explanations. Format code using proper markdown code blocks with language specification. Be specific about improvements and provide measurable benefits when possible."

/-- The characters of a path's basename: everything after the last slash.
Models `os.path.basename` for POSIX paths. -/
def basenameChars (l : List Char) : List Char :=
  (l.reverse.takeWhile fun c => c != '/').reverse

/-- The characters after the last dot (the whole input when no dot occurs):
models Python `name.split('.')[-1]`. -/
def lastDotSegment (l : List Char) : List Char :=
  (l.reverse.takeWhile fun c => c != '.').reverse

/-- The uppercased extension the prompt embeds:
`os.path.basename(file_path).split('.')[-1].upper()`. -/
def extensionUpper (file_path : String) : String :=
  String.mk ((lastDotSegment (basenameChars file_path.data)).map Char.toUpper)

/-- The per-file user instruction built by `analyze_code_with_cortex`
(adjacent f-string literals concatenated). -/
def userPrompt (code_content file_path : String) : String :=
  "Please perform a comprehensive code review and suggest optimizations for the following "
    ++ extensionUpper file_path
    ++ " code. Focus on performance, readability, security, and best practices. Provide the optimized code in a markdown block, followed by a detailed explanation of changes.\n\nCode from file '"
    ++ file_path
    ++ "':\n```\n"
    ++ code_content
    ++ "\n```"

/-- The full prompt submitted to Cortex: system prompt plus user request. -/
def full_cortex_prompt (code_content file_path : String) : String :=
  get_system_prompt ++ "\n\nUser Request: " ++ userPrompt code_content file_path

/-- The single-quote character escaped for SQL string literals. -/
def squote : Char := '\''

/-- Character-level embedding of `prompt.replace("'", "''")`: every single
quote is doubled, all other characters pass through. -/
def escQuoteL : List Char → List Char
  | [] => []
  | c :: cs => if c = squote then squote :: squote :: escQuoteL cs else c :: escQuoteL cs

/-- String-level wrapper for the SQL quote escaping performed on the prompt. -/
def escapeQuotes (s : String) : String :=
  String.mk (escQuoteL s.data)

/-- Modelled from the spec: standard SQL single-quoted string-literal
decoding of a literal body (the remote side's interpretation, which is not
part of this repository's code): an escaped quote pair stands for one
quote, every other character stands for itself. -/
def sqlLiteralDecodeL : List Char → List Char
  | [] => []
  | [c] => [c]
  | c :: d :: rest =>
      if c = squote && d = squote then squote :: sqlLiteralDecodeL rest
      else c :: sqlLiteralDecodeL (d :: rest)

/-- String-level wrapper for SQL string-literal decoding. -/
def sqlLiteralDecode (s : String) : String :=
  String.mk (sqlLiteralDecodeL s.data)

/-- The SQL text submitted through `session.sql(...)`, with the escaped
prompt embedded in a single-quoted literal. -/
def cortexSql (code_content file_path : String) : String :=
  "\n            SELECT SNOWFLAKE.CORTEX.COMPLETE(\n                '"
    ++ CORTEX_MODEL
    ++ "',\n                '"
    ++ escapeQuotes (full_cortex_prompt code_content file_path)
    ++ "'\n            ) as RESPONSE;\n        "

/-- Outcome of executing the remote query: either the collected rows (each
row's `RESPONSE` column) or a raised exception's message `str(e)`. -/
inductive QueryOutcome where
  | rows (rs : List String) : QueryOutcome
  | raises (msg : String) : QueryOutcome

/-- The exact string returned when the query yields no rows. -/
def noResponseMsg : String := "Error: No response received from Cortex."

/-- The diagnostic string built in the `except` branch: the triggering
error's message followed by the enumerated likely causes (adjacent string
literals concatenated). -/
def errorDiagnostic (m : String) : String :=
  "Error using Snowflake Cortex: " ++ m
    ++ "\nPlease ensure:\n1. You have USAGE privileges on CORTEX functions\n2. The selected model is available in your account\n3. Your Snowflake role has proper permissions and network access."

/-- Embedding of `analyze_code_with_cortex(session, code_content, file_path)`:
the session is abstracted as a `query` oracle applied to the constructed SQL
text. A nonempty result yields the first row's `RESPONSE`; an empty result
yields the fixed no-response message; a raised exception is caught and
converted to the diagnostic string (it never propagates: the function is
total and returns a string on every outcome). -/
def analyze_code_with_cortex (query : String → QueryOutcome)
    (code_content : String) (file_path : String) : String :=
  match query (cortexSql code_content file_path) with
  | .rows [] => noResponseMsg
  | .rows (r :: _) => r
  | .raises m => errorDiagnostic m

/-- An analysis report entry: the dictionary
`{"file": relative path, "analysis": response text}` appended by `main`. -/
structure Report where
  file : String
  analysis : String
deriving Repr, DecidableEq

/-- The fixed file extension list `FILE_EXTENSIONS_TO_ANALYZE` in `main`. -/
def FILE_EXTENSIONS_TO_ANALYZE : List String :=
  [".py", ".sql", ".js", ".ts", ".java", ".cpp", ".cs", ".go", ".rs", ".php",
   ".rb", ".swift", ".kt", ".dart", ".sh"]

/-- Embedding of `main`'s per-file loop. `readF` abstracts
`read_code_file` (`none` models a read error caught inside it), `query`
abstracts the session, and `rel` abstracts `os.path.relpath(·, root)`.
The loop mirrors the Python truthiness tests: a `None` or empty content
string skips the file, a falsy (empty) report string is not appended.
`acc` is the accumulated `all_analysis_reports` and `calls` counts the
invocations of `analyze_code_with_cortex`. -/
def driverLoop (readF : String → Option String) (query : String → QueryOutcome)
    (rel : String → String) : List String → List Report → Nat → List Report × Nat
  | [], acc, calls => (acc, calls)
  | f :: fs, acc, calls =>
      match readF f with
      | some c =>
          if c = "" then driverLoop readF query rel fs acc calls
          else
            let report := analyze_code_with_cortex query c f
            if report = "" then driverLoop readF query rel fs acc (calls + 1)
            else driverLoop readF query rel fs (acc ++ [⟨rel f, report⟩]) (calls + 1)
      | none => driverLoop readF query rel fs acc calls

/-- Specification-side description of one loop iteration: the report entry
(if any) that a single selected file contributes. -/
def processEntry (readF : String → Option String) (query : String → QueryOutcome)
    (rel : String → String) (f : String) : Option Report :=
  match readF f with
  | some c =>
      if c = "" then none
      else
        let report := analyze_code_with_cortex query c f
        if report = "" then none else some ⟨rel f, report⟩
  | none => none

/-- The fixed header opening the aggregated Markdown report. -/
def reportHeader : String := "### Automated Code Review by Snowflake Cortex\n\n"

/-- Embedding of the aggregation loop in `main`: starting from the fixed
header, append each report's subsection (two `+=` statements per item). -/
def buildSummary (reports : List Report) : String :=
  reports.foldl
    (fun acc item =>
      acc ++ ("#### File: `" ++ item.file ++ "`\n\n") ++ (item.analysis ++ "\n\n---\n\n"))
    reportHeader

/-- Specification-side shape of one file's subsection in the final report. -/
def reportBlock (item : Report) : String :=
  "#### File: `" ++ item.file ++ "`\n\n" ++ item.analysis ++ "\n\n---\n\n"

/-- Outcome of `get_snowflake_session()`: a session, or a raised connection
error caught in `main`. -/
inductive ConnectOutcome where
  | ok : ConnectOutcome
  | fails (msg : String) : ConnectOutcome

/-- Observable outcome of one `main()` run. -/
structure RunResult where
  connectAttempted : Bool
  sessionAcquired : Bool
  reports : List Report
  analyzeCalls : Nat
  printedSummary : Option String
  closeCalls : Nat
deriving Repr, DecidableEq

/-- Embedding of `main()`: scan the tree rooted at the working directory,
return early when no files match, attempt the connection (early return on
failure, before any report exists), run the per-file loop, print the
aggregated summary only when at least one report was produced, and close
the session exactly when one was acquired. `rel` abstracts
`os.path.relpath(·, REPO_ROOT_PATH)`; the claims hold for every such
function. -/
def mainModel (cwd : String) (tree : FSList) (connect : ConnectOutcome)
    (readF : String → Option String) (query : String → QueryOutcome)
    (rel : String → String) : RunResult :=
  let code_files := get_files_to_analyze cwd FILE_EXTENSIONS_TO_ANALYZE tree
  if code_files.isEmpty then
    { connectAttempted := false, sessionAcquired := false, reports := []
      analyzeCalls := 0, printedSummary := none, closeCalls := 0 }
  else
    match connect with
    | .fails _ =>
        { connectAttempted := true, sessionAcquired := false, reports := []
          analyzeCalls := 0, printedSummary := none, closeCalls := 0 }
    | .ok =>
        let res := driverLoop readF query rel code_files [] 0
        { connectAttempted := true, sessionAcquired := true, reports := res.1
          analyzeCalls := res.2
          printedSummary := if res.1.isEmpty then none else some (buildSummary res.1)
          closeCalls := 1 }

/-- C2: when the remote call raises, `analyze_code_with_cortex` catches the
exception (the embedding is a total function returning a string on every
outcome, so nothing propagates past it) and returns the diagnostic string,
which contains the triggering error's message `str(e)` and the enumerated
likely causes. -/
theorem analyze_raises_returns_diagnostic (query : String → QueryOutcome)
    (code_content file_path m : String)
    (h : query (cortexSql code_content file_path) = QueryOutcome.raises m) :
    analyze_code_with_cortex query code_content file_path = errorDiagnostic m ∧
    ∃ pre post,
      analyze_code_with_cortex query code_content file_path = pre ++ (m ++ post) ∧
      post = "\nPlease ensure:\n1. You have USAGE privileges on CORTEX functions\n2. The selected model is available in your account\n3. Your Snowflake role has proper permissions and network access." := by
  unfold analyze_code_with_cortex
  rw [h]
  refine ⟨rfl, "Error using Snowflake Cortex: ", _, ?_, rfl⟩
  simp only [errorDiagnostic, String.append_assoc]

/-- C2 witness: a concrete raising oracle produces the diagnostic. -/
theorem analyze_raises_returns_diagnostic_witness :
    analyze_code_with_cortex (fun _ => QueryOutcome.raises "boom") "x" "a.py"
      = errorDiagnostic "boom" ∧
    ∃ pre post,
      analyze_code_with_cortex (fun _ => QueryOutcome.raises "boom") "x" "a.py"
        = pre ++ ("boom" ++ post) ∧
      post = "\nPlease ensure:\n1. You have USAGE privileges on CORTEX functions\n2. The selected model is available in your account\n3. Your Snowflake role has proper permissions and network access." :=
  analyze_raises_returns_diagnostic (fun _ => QueryOutcome.raises "boom") "x" "a.py" "boom" rfl

/-- C4: an empty result set yields the exact no-response literal, and a
nonempty result set yields the first row's `RESPONSE` field. -/
theorem analyze_rows_first_or_noresponse (query : String → QueryOutcome)
    (code_content file_path : String) :
    (query (cortexSql code_content file_path) = QueryOutcome.rows [] →
      analyze_code_with_cortex query code_content file_path
        = "Error: No response received from Cortex.") ∧
    (∀ r rs, query (cortexSql code_content file_path) = QueryOutcome.rows (r :: rs) →
      analyze_code_with_cortex query code_content file_path = r) := by
  constructor
  · intro h
    unfold analyze_code_with_cortex
    rw [h]
    rfl
  · intro r rs h
    unfold analyze_code_with_cortex
    rw [h]

/-- C4 witness: concrete empty and nonempty result sets. -/
theorem analyze_rows_first_or_noresponse_witness :
    analyze_code_with_cortex (fun _ => QueryOutcome.rows []) "x" "a.py"
      = "Error: No response received from Cortex." ∧
    analyze_code_with_cortex (fun _ => QueryOutcome.rows ["hi"]) "x" "a.py" = "hi" :=
  ⟨(analyze_rows_first_or_noresponse (fun _ => QueryOutcome.rows []) "x" "a.py").1 rfl,
   (analyze_rows_first_or_noresponse (fun _ => QueryOutcome.rows ["hi"]) "x" "a.py").2
     "hi" [] rfl⟩

/-- C5: the constructed prompt contains the uppercased last dot-separated
segment of the path's basename, and contains the file content verbatim. -/
theorem prompt_contains_extension_and_content (code_content file_path : String) :
    (∃ a b, full_cortex_prompt code_content file_path
      = a ++ (extensionUpper file_path ++ b)) ∧
    (∃ a b, full_cortex_prompt code_content file_path = a ++ (code_content ++ b)) := by
  constructor
  · refine ⟨get_system_prompt ++ "\n\nUser Request: "
      ++ "Please perform a comprehensive code review and suggest optimizations for the following ",
      " code. Focus on performance, readability, security, and best practices. Provide the optimized code in a markdown block, followed by a detailed explanation of changes.\n\nCode from file '"
        ++ file_path ++ "':\n```\n" ++ code_content ++ "\n```", ?_⟩
    simp only [full_cortex_prompt, userPrompt, String.append_assoc]
  · refine ⟨get_system_prompt ++ "\n\nUser Request: "
      ++ "Please perform a comprehensive code review and suggest optimizations for the following "
      ++ extensionUpper file_path
      ++ " code. Focus on performance, readability, security, and best practices. Provide the optimized code in a markdown block, followed by a detailed explanation of changes.\n\nCode from file '"
      ++ file_path ++ "':\n```\n", "\n```", ?_⟩
    simp only [full_cortex_prompt, userPrompt, String.append_assoc]

/-- Round trip at the character level: doubling every single quote and then
decoding quote pairs restores the original character list. -/
theorem sqlLiteralDecodeL_escQuoteL (l : List Char) :
    sqlLiteralDecodeL (escQuoteL l) = l := by
  induction l with
  | nil => rfl
  | cons c cs ih =>
      by_cases hc : c = squote
      · subst hc
        simp only [escQuoteL, if_pos rfl, sqlLiteralDecodeL, decide_True, Bool.and_self,
          if_pos, ih]
      · cases h : escQuoteL cs with
        | nil =>
            rw [h] at ih
            simp only [sqlLiteralDecodeL] at ih
            simp [escQuoteL, hc, h, sqlLiteralDecodeL, ← ih]
        | cons d rest =>
            rw [h] at ih
            simp only [escQuoteL, if_neg hc, h, sqlLiteralDecodeL]
            rw [if_neg]
            · rw [ih]
            · simp [hc]

/-- C9: the text embedded in the query's single-quoted literal is the
prompt with quotes doubled, and standard SQL string-literal decoding of it
recovers the constructed prompt exactly. -/
theorem escape_decode_roundtrip (code_content file_path : String) :
    sqlLiteralDecode (escapeQuotes (full_cortex_prompt code_content file_path))
      = full_cortex_prompt code_content file_path := by
  show String.mk (sqlLiteralDecodeL (escQuoteL (full_cortex_prompt code_content file_path).data))
    = full_cortex_prompt code_content file_path
  rw [sqlLiteralDecodeL_escQuoteL]

/-- Helper: the `except` branch result, shared by several claims. -/
theorem analyze_raises_eq (query : String → QueryOutcome) (c f m : String)
    (h : query (cortexSql c f) = QueryOutcome.raises m) :
    analyze_code_with_cortex query c f = errorDiagnostic m := by
  unfold analyze_code_with_cortex
  rw [h]

/-- Helper: the diagnostic string is never empty, so a failed remote call
still passes the driver's truthiness test. -/
theorem errorDiagnostic_ne_empty (m : String) : errorDiagnostic m ≠ "" := by
  intro h
  have hd := congrArg String.data h
  rw [errorDiagnostic] at hd
  simp only [String.data_append] at hd
  have h1 : ("Error using Snowflake Cortex: ").data = [] :=
    (List.append_eq_nil.mp ((List.append_eq_nil.mp hd).1)).1
  exact absurd h1 (by decide)

/-- Helper: the accumulated report list is the accumulator followed by one
optional entry per remaining file, in order. -/
theorem driverLoop_fst (readF : String → Option String) (query : String → QueryOutcome)
    (rel : String → String) :
    ∀ (files : List String) (acc : List Report) (calls : Nat),
      (driverLoop readF query rel files acc calls).1
        = acc ++ files.filterMap (processEntry readF query rel) := by
  intro files
  induction files with
  | nil => intro acc calls; simp [driverLoop]
  | cons f fs ih =>
      intro acc calls
      cases hr : readF f with
      | none =>
          have hp : processEntry readF query rel f = none := by simp [processEntry, hr]
          simp [driverLoop, hr, hp, ih, List.filterMap_cons]
      | some c =>
          by_cases hc : c = ""
          · have hp : processEntry readF query rel f = none := by
              simp [processEntry, hr, hc]
            simp [driverLoop, hr, hc, hp, ih, List.filterMap_cons]
          · by_cases hrep : analyze_code_with_cortex query c f = ""
            · have hp : processEntry readF query rel f = none := by
                simp [processEntry, hr, hc, hrep]
              simp [driverLoop, hr, hc, hrep, hp, ih, List.filterMap_cons]
            · have hp : processEntry readF query rel f
                  = some ⟨rel f, analyze_code_with_cortex query c f⟩ := by
                simp [processEntry, hr, hc, hrep]
              simp [driverLoop, hr, hc, hrep, hp, ih, List.filterMap_cons]

/-- Helper: folding string append from any start pulls the start out front. -/
theorem foldl_append_start (l : List String) :
    ∀ a b : String, l.foldl (· ++ ·) (a ++ b) = a ++ l.foldl (· ++ ·) b := by
  induction l with
  | nil => intro a b; rfl
  | cons s t ih =>
      intro a b
      simp only [List.foldl_cons, String.append_assoc, ih]

/-- Helper: `String.join` peels its first element. -/
theorem string_join_cons (s : String) (l : List String) :
    String.join (s :: l) = s ++ String.join l := by
  show (s :: l).foldl (· ++ ·) "" = s ++ l.foldl (· ++ ·) ""
  have h1 : (s :: l).foldl (· ++ ·) "" = l.foldl (· ++ ·) s := by
    simp [List.foldl_cons, String.empty_append]
  rw [h1, ← String.append_empty s, foldl_append_start, String.append_empty]

/-- Helper: the aggregation fold equals the header followed by the joined
per-file blocks. -/
theorem buildSummary_eq_blocks (reports : List Report) :
    buildSummary reports = reportHeader ++ String.join (reports.map reportBlock) := by
  show reports.foldl _ reportHeader = _
  suffices h : ∀ (l : List Report) (acc : String),
      (l.foldl
        (fun acc item =>
          acc ++ ("#### File: `" ++ item.file ++ "`\n\n") ++ (item.analysis ++ "\n\n---\n\n"))
        acc)
      = acc ++ String.join (l.map reportBlock) by
    exact h reports reportHeader
  intro l
  induction l with
  | nil => intro acc; simp [String.append_empty, String.join]
  | cons x t ih =>
      intro acc
      rw [List.foldl_cons, ih, List.map_cons, string_join_cons]
      simp only [reportBlock, String.append_assoc]

/-- C6 counterexample: a selected file whose content is read successfully
but is the empty string (`read_code_file` returns `""`, not `None`) fails
the driver's truthiness test, so no report entry is appended for it. -/
theorem report_per_read_file_counterexample :
    (fun _ => (some "" : Option String)) "a.py" = some "" ∧
    (driverLoop (fun _ => some "") (fun _ => QueryOutcome.rows ["ok"]) (fun p => p)
        ["a.py"] [] 0).1 = [] :=
  ⟨rfl, by decide⟩

/-- C6 amended: the report sequence holds, in order, exactly one entry per
selected file whose content reads as a non-empty string and whose analysis
text is non-empty; a failed remote call yields the non-empty diagnostic and
therefore still contributes exactly one entry; and the sequence is
append-only (processing more files extends it without touching earlier
entries). -/
theorem report_entries_amended (readF : String → Option String)
    (query : String → QueryOutcome) (rel : String → String) :
    (∀ files, (driverLoop readF query rel files [] 0).1
        = files.filterMap (processEntry readF query rel)) ∧
    (∀ f c m, readF f = some c → c ≠ "" →
        query (cortexSql c f) = QueryOutcome.raises m →
        processEntry readF query rel f = some ⟨rel f, errorDiagnostic m⟩) ∧
    (∀ fs1 fs2, (driverLoop readF query rel (fs1 ++ fs2) [] 0).1
        = (driverLoop readF query rel fs1 [] 0).1
          ++ (driverLoop readF query rel fs2 [] 0).1) := by
  refine ⟨fun files => ?_, fun f c m h1 h2 h3 => ?_, fun fs1 fs2 => ?_⟩
  · rw [driverLoop_fst, List.nil_append]
  · have ha := analyze_raises_eq query c f m h3
    simp [processEntry, h1, h2, ha, errorDiagnostic_ne_empty m]
  · rw [driverLoop_fst, driverLoop_fst, driverLoop_fst, List.nil_append, List.nil_append,
      List.nil_append, List.filterMap_append]

/-- C6 amended witness: a raising oracle on a readable non-empty file
yields exactly the diagnostic entry. -/
theorem report_entries_amended_witness :
    (driverLoop (fun _ => some "x") (fun _ => QueryOutcome.raises "boom") (fun p => p)
        ["a.py"] [] 0).1
      = [⟨"a.py", errorDiagnostic "boom"⟩] ∧
    processEntry (fun _ => some "x") (fun _ => QueryOutcome.raises "boom") (fun p => p)
        "a.py"
      = some ⟨"a.py", errorDiagnostic "boom"⟩ := by
  have h := report_entries_amended (fun _ => some "x")
    (fun _ => QueryOutcome.raises "boom") (fun p => p)
  have h2 := h.2.1 "a.py" "x" "boom" rfl (by decide) rfl
  refine ⟨?_, h2⟩
  rw [h.1 ["a.py"]]
  simp [List.filterMap_cons, h2]

/-- C7: the session is closed exactly once in every run that acquired one,
regardless of what the per-file oracles did, and never closed in a run
that did not acquire one (connection failure or the empty-scan early
exit). -/
theorem session_closed_iff_acquired (cwd : String) (tree : FSList)
    (connect : ConnectOutcome) (readF : String → Option String)
    (query : String → QueryOutcome) (rel : String → String) :
    ((mainModel cwd tree connect readF query rel).sessionAcquired = true →
      (mainModel cwd tree connect readF query rel).closeCalls = 1) ∧
    ((mainModel cwd tree connect readF query rel).sessionAcquired = false →
      (mainModel cwd tree connect readF query rel).closeCalls = 0) := by
  by_cases hE : (get_files_to_analyze cwd FILE_EXTENSIONS_TO_ANALYZE tree).isEmpty = true
  · simp [mainModel, hE]
  · rw [Bool.not_eq_true] at hE
    cases connect with
    | ok => simp [mainModel, hE]
    | fails m => simp [mainModel, hE]

/-- C7 witness: a successful concrete run closes once; a failed connection
closes never. -/
theorem session_closed_iff_acquired_witness :
    (mainModel "/r" (.cons (.file "a.py") .nil) ConnectOutcome.ok (fun _ => some "x")
        (fun _ => QueryOutcome.rows ["ok"]) (fun p => p)).closeCalls = 1 ∧
    (mainModel "/r" (.cons (.file "a.py") .nil) (ConnectOutcome.fails "no creds")
        (fun _ => some "x") (fun _ => QueryOutcome.rows ["ok"]) (fun p => p)).closeCalls
      = 0 :=
  ⟨(session_closed_iff_acquired "/r" (.cons (.file "a.py") .nil) ConnectOutcome.ok
      (fun _ => some "x") (fun _ => QueryOutcome.rows ["ok"]) (fun p => p)).1 (by decide),
   (session_closed_iff_acquired "/r" (.cons (.file "a.py") .nil)
      (ConnectOutcome.fails "no creds") (fun _ => some "x")
      (fun _ => QueryOutcome.rows ["ok"]) (fun p => p)).2 (by decide)⟩

/-- C8: when the file selector returns no paths the driver terminates at
once: no report or summary is produced, the connection is never attempted,
and the review client is never invoked. -/
theorem no_files_no_connection (cwd : String) (tree : FSList)
    (connect : ConnectOutcome) (readF : String → Option String)
    (query : String → QueryOutcome) (rel : String → String)
    (h : get_files_to_analyze cwd FILE_EXTENSIONS_TO_ANALYZE tree = []) :
    mainModel cwd tree connect readF query rel
      = { connectAttempted := false, sessionAcquired := false, reports := []
          analyzeCalls := 0, printedSummary := none, closeCalls := 0 } := by
  simp [mainModel, h]

/-- C8 witness: the empty tree selects no files and the run does nothing. -/
theorem no_files_no_connection_witness :
    mainModel "/r" .nil ConnectOutcome.ok (fun _ => some "x")
        (fun _ => QueryOutcome.rows ["ok"]) (fun p => p)
      = { connectAttempted := false, sessionAcquired := false, reports := []
          analyzeCalls := 0, printedSummary := none, closeCalls := 0 } :=
  no_files_no_connection "/r" .nil ConnectOutcome.ok (fun _ => some "x")
    (fun _ => QueryOutcome.rows ["ok"]) (fun p => p) rfl

/-- C3: every run that reaches aggregation prints a summary that begins
with the fixed header and consists of exactly one subsection per produced
report entry, in file-discovery order: the entry's header line, its exact
analysis text, and the `---` delimiter. -/
theorem final_report_structure (cwd : String) (tree : FSList)
    (readF : String → Option String) (query : String → QueryOutcome)
    (rel : String → String)
    (h : (mainModel cwd tree ConnectOutcome.ok readF query rel).reports ≠ []) :
    ∃ rest,
      (mainModel cwd tree ConnectOutcome.ok readF query rel).printedSummary
        = some ("### Automated Code Review by Snowflake Cortex" ++ rest) ∧
      (mainModel cwd tree ConnectOutcome.ok readF query rel).printedSummary
        = some (reportHeader ++ String.join
            (((get_files_to_analyze cwd FILE_EXTENSIONS_TO_ANALYZE tree).filterMap
                (processEntry readF query rel)).map reportBlock)) := by
  by_cases hE : (get_files_to_analyze cwd FILE_EXTENSIONS_TO_ANALYZE tree).isEmpty = true
  · exact absurd (by simp [mainModel, hE]) h
  · rw [Bool.not_eq_true] at hE
    have hrep : (mainModel cwd tree ConnectOutcome.ok readF query rel).reports
        = (driverLoop readF query rel
            (get_files_to_analyze cwd FILE_EXTENSIONS_TO_ANALYZE tree) [] 0).1 := by
      simp [mainModel, hE]
    rw [hrep] at h
    have hne : ((driverLoop readF query rel
        (get_files_to_analyze cwd FILE_EXTENSIONS_TO_ANALYZE tree) [] 0).1).isEmpty
        = false := by
      cases hL : (driverLoop readF query rel
          (get_files_to_analyze cwd FILE_EXTENSIONS_TO_ANALYZE tree) [] 0).1 with
      | nil => exact absurd hL h
      | cons a t => rfl
    have hps : (mainModel cwd tree ConnectOutcome.ok readF query rel).printedSummary
        = some (buildSummary (driverLoop readF query rel
            (get_files_to_analyze cwd FILE_EXTENSIONS_TO_ANALYZE tree) [] 0).1) := by
      simp [mainModel, hE, hne]
    have hfm : (driverLoop readF query rel
        (get_files_to_analyze cwd FILE_EXTENSIONS_TO_ANALYZE tree) [] 0).1
        = (get_files_to_analyze cwd FILE_EXTENSIONS_TO_ANALYZE tree).filterMap
            (processEntry readF query rel) := by
      rw [driverLoop_fst, List.nil_append]
    refine ⟨"\n\n" ++ String.join
        (((get_files_to_analyze cwd FILE_EXTENSIONS_TO_ANALYZE tree).filterMap
            (processEntry readF query rel)).map reportBlock), ?_, ?_⟩
    · rw [hps, buildSummary_eq_blocks, hfm]
      have hh : reportHeader = "### Automated Code Review by Snowflake Cortex" ++ "\n\n" := by
        decide
      rw [hh, String.append_assoc]
    · rw [hps, buildSummary_eq_blocks, hfm]

/-- C3 witness: a concrete run with one file prints the structured
summary. -/
theorem final_report_structure_witness :
    ∃ rest,
      (mainModel "/r" (.cons (.file "a.py") .nil) ConnectOutcome.ok (fun _ => some "x")
          (fun _ => QueryOutcome.rows ["ok"]) (fun p => p)).printedSummary
        = some ("### Automated Code Review by Snowflake Cortex" ++ rest) ∧
      (mainModel "/r" (.cons (.file "a.py") .nil) ConnectOutcome.ok (fun _ => some "x")
          (fun _ => QueryOutcome.rows ["ok"]) (fun p => p)).printedSummary
        = some (reportHeader ++ String.join
            (((get_files_to_analyze "/r" FILE_EXTENSIONS_TO_ANALYZE
                  (.cons (.file "a.py") .nil)).filterMap
                (processEntry (fun _ => some "x") (fun _ => QueryOutcome.rows ["ok"])
                  (fun p => p))).map reportBlock)) :=
  final_report_structure "/r" (.cons (.file "a.py") .nil) (fun _ => some "x")
    (fun _ => QueryOutcome.rows ["ok"]) (fun p => p) (by decide)

/-- Helper: the walk of an empty listing yields nothing. -/
theorem walkDir_nil (root : String) : walkDir root .nil = [] := rfl

/-- Helper: a leading file contributes its pair first, before the rest. -/
theorem walkDir_cons_file (root nm : String) (rest : FSList) :
    walkDir root (.cons (.file nm) rest) = (root, nm) :: walkDir root rest := by
  simp [walkDir, topFiles, walkSubdirs]

/-- Helper: membership in the walk of a listing headed by a directory. -/
theorem mem_walkDir_cons_dir (root nm : String) (es rest : FSList) (x : String × String) :
    x ∈ walkDir root (.cons (.dir nm es) rest)
      ↔ x ∈ walkDir (pathJoin root nm) es ∨ x ∈ walkDir root rest := by
  simp only [walkDir, topFiles, walkSubdirs, List.mem_append]
  tauto

/-- Helper bridge: a pair lies in the recursive file collection exactly when
the walk yields it from some directory whose join produces that full path. -/
theorem regular_iff_walk (root : String) (es : FSList) (full nm : String) :
    (full, nm) ∈ regularFilesUnder root es ↔
      ∃ d, (d, nm) ∈ walkDir root es ∧ pathJoin d nm = full := by
  match es with
  | .nil =>
      simp [regularFilesUnder, walkDir, topFiles, walkSubdirs]
  | .cons (.file n) rest =>
      have ih := regular_iff_walk root rest full nm
      rw [walkDir_cons_file]
      simp only [regularFilesUnder, List.mem_cons, ih, Prod.mk.injEq]
      constructor
      · rintro (⟨hf, hn⟩ | ⟨d, hd, hj⟩)
        · exact ⟨root, Or.inl ⟨rfl, hn⟩, by rw [hn, ← hf]⟩
        · exact ⟨d, Or.inr hd, hj⟩
      · rintro ⟨d, (⟨hd, hn⟩ | hd), hj⟩
        · subst hd; subst hn; exact Or.inl ⟨hj.symm, rfl⟩
        · exact Or.inr ⟨d, hd, hj⟩
  | .cons (.dir n es') rest =>
      have ih1 := regular_iff_walk (pathJoin root n) es' full nm
      have ih2 := regular_iff_walk root rest full nm
      simp only [regularFilesUnder, List.mem_append, ih1, ih2]
      constructor
      · rintro (⟨d, hd, hj⟩ | ⟨d, hd, hj⟩)
        · exact ⟨d, (mem_walkDir_cons_dir root n es' rest (d, nm)).mpr (Or.inl hd), hj⟩
        · exact ⟨d, (mem_walkDir_cons_dir root n es' rest (d, nm)).mpr (Or.inr hd), hj⟩
      · rintro ⟨d, hd, hj⟩
        rcases (mem_walkDir_cons_dir root n es' rest (d, nm)).mp hd with hm | hm
        · exact Or.inl ⟨d, hm, hj⟩
        · exact Or.inr ⟨d, hm, hj⟩

/-- Helper: what the selector's per-pair function returns, as a predicate. -/
theorem select_some_iff (E : List String) (rf : String × String) (p : String) :
    ((if E.any fun ext => strEndsWith rf.2 ext then
        if excludeDirs.any fun d => containsSub (pathJoin rf.1 rf.2) d then none
        else some (pathJoin rf.1 rf.2)
      else none) = some p)
    ↔ (E.any fun ext => strEndsWith rf.2 ext) = true
      ∧ (excludeDirs.any fun d => containsSub (pathJoin rf.1 rf.2) d) = false
      ∧ p = pathJoin rf.1 rf.2 := by
  by_cases h1 : (E.any fun ext => strEndsWith rf.2 ext) = true
  · rw [if_pos h1]
    by_cases h2 : (excludeDirs.any fun d => containsSub (pathJoin rf.1 rf.2) d) = true
    · rw [if_pos h2]
      simp [h1, h2]
    · rw [if_neg h2]
      rw [Bool.not_eq_true] at h2
      simp [h1, h2, eq_comm]
  · rw [if_neg h1]
    simp [h1]

/-- C1: a path is returned by `get_files_to_analyze` exactly when it is the
full path of a regular file under the root whose file name ends with an
accepted extension and whose full path contains no excluded directory
marker — order-independent set equality with the recursive collection. -/
theorem get_files_selects_exactly (R : String) (E : List String) (t : FSList) (p : String) :
    p ∈ get_files_to_analyze R E t ↔
      ∃ nm, (p, nm) ∈ regularFilesUnder R t
        ∧ (E.any fun ext => strEndsWith nm ext) = true
        ∧ (excludeDirs.any fun d => containsSub p d) = false := by
  unfold get_files_to_analyze
  rw [List.mem_filterMap]
  constructor
  · rintro ⟨⟨d, nm⟩, hmem, hf⟩
    obtain ⟨hext, hexc, hp⟩ := (select_some_iff E (d, nm) p).mp hf
    refine ⟨nm, (regular_iff_walk R t p nm).mpr ⟨d, hmem, hp.symm⟩, hext, ?_⟩
    rw [hp]
    exact hexc
  · rintro ⟨nm, hreg, hext, hexc⟩
    obtain ⟨d, hd, hj⟩ := (regular_iff_walk R t p nm).mp hreg
    refine ⟨(d, nm), hd, (select_some_iff E (d, nm) p).mpr ⟨hext, ?_, hj.symm⟩⟩
    rw [hj]
    exact hexc

/-- C10 counterexample: with a relative root the returned paths are
relative, not absolute — the docstring's promise of absolute paths only
holds when the supplied root is itself absolute. -/
theorem returned_paths_absolute_counterexample :
    get_files_to_analyze "rel" [".py"] (.cons (.file "a.py") .nil) = ["rel/a.py"] ∧
    startsSlash "rel/a.py" = false := by
  constructor <;> decide

/-- Helper: prepending keeps a leading slash. -/
theorem startsSlash_append (a b : String) (h : startsSlash a = true) :
    startsSlash (a ++ b) = true := by
  unfold startsSlash at h ⊢
  rw [String.data_append]
  cases hd : a.data with
  | nil => rw [hd] at h; exact absurd h (by decide)
  | cons c cs =>
      rw [hd] at h
      rw [List.cons_append]
      exact h

/-- Helper: joining any component onto an absolute base stays absolute. -/
theorem pathJoin_absolute (a b : String) (h : startsSlash a = true) :
    startsSlash (pathJoin a b) = true := by
  unfold pathJoin
  by_cases hb : startsSlash b = true
  · rw [if_pos hb]
    exact hb
  · rw [if_neg hb]
    by_cases ha : a = ""
    · subst ha
      exact absurd h (by decide)
    · rw [if_neg ha]
      by_cases he : endsSlash a = true
      · rw [if_pos he]
        exact startsSlash_append a b h
      · rw [if_neg he]
        exact startsSlash_append (a ++ "/") b (startsSlash_append a "/" h)

/-- Helper: every directory the walk visits under an absolute root is
itself absolute. -/
theorem walk_roots_absolute (root : String) (es : FSList) (h : startsSlash root = true) :
    ∀ d n, (d, n) ∈ walkDir root es → startsSlash d = true := by
  match es with
  | .nil =>
      intro d n hd
      rw [walkDir_nil] at hd
      exact absurd hd (List.not_mem_nil (d, n))
  | .cons (.file nm) rest =>
      intro d n hd
      rw [walkDir_cons_file] at hd
      rcases List.mem_cons.mp hd with he | hm
      · rw [(Prod.mk.injEq .. ).mp he |>.1]
        exact h
      · exact walk_roots_absolute root rest h d n hm
  | .cons (.dir nm es') rest =>
      intro d n hd
      rcases (mem_walkDir_cons_dir root nm es' rest (d, n)).mp hd with hm | hm
      · exact walk_roots_absolute (pathJoin root nm) es'
          (pathJoin_absolute root nm h) d n hm
      · exact walk_roots_absolute root rest h d n hm

/-- Helper: a filter-and-map keep is a sublist of mapping everything. -/
theorem filterMap_sublist_map {α β : Type} (f : α → Option β) (g : α → β)
    (h : ∀ x y, f x = some y → y = g x) :
    ∀ l : List α, List.Sublist (l.filterMap f) (l.map g) := by
  intro l
  induction l with
  | nil => simp
  | cons a t ih =>
      rw [List.filterMap_cons, List.map_cons]
      cases hf : f a with
      | none => exact List.Sublist.cons (g a) ih
      | some b =>
          rw [h a b hf]
          exact List.Sublist.cons₂ (g a) ih

/-- C10 amended: when the supplied root path is absolute, every path in the
returned sequence is absolute; and the sequence preserves the underlying
traversal order (it is a sublist of the walk's joined full paths). -/
theorem get_files_absolute_and_ordered (R : String) (E : List String) (t : FSList) :
    (startsSlash R = true →
      ∀ p ∈ get_files_to_analyze R E t, startsSlash p = true) ∧
    List.Sublist (get_files_to_analyze R E t)
      ((walkDir R t).map fun rf => pathJoin rf.1 rf.2) := by
  constructor
  · intro hR p hp
    rw [get_files_to_analyze, List.mem_filterMap] at hp
    obtain ⟨⟨d, nm⟩, hmem, hf⟩ := hp
    obtain ⟨_, _, hp⟩ := (select_some_iff E (d, nm) p).mp hf
    rw [hp]
    exact pathJoin_absolute d nm (walk_roots_absolute R t hR d nm hmem)
  · apply filterMap_sublist_map
    intro rf y hf
    exact ((select_some_iff E rf y).mp hf).2.2

/-- C10 amended witness: a concrete absolute root yields absolute paths in
walk order. -/
theorem get_files_absolute_and_ordered_witness :
    (∀ p ∈ get_files_to_analyze "/repo" [".py"] (.cons (.file "a.py") .nil),
      startsSlash p = true) ∧
    List.Sublist (get_files_to_analyze "/repo" [".py"] (.cons (.file "a.py") .nil))
      ((walkDir "/repo" (.cons (.file "a.py") .nil)).map fun rf => pathJoin rf.1 rf.2) :=
  ⟨(get_files_absolute_and_ordered "/repo" [".py"] (.cons (.file "a.py") .nil)).1
      (by decide),
   (get_files_absolute_and_ordered "/repo" [".py"] (.cons (.file "a.py") .nil)).2⟩

end CodeAnalyzer
